import Mathlib

/-!
Shallow embedding of the record-to-SQL translation and transactional
batch-write engine of the `writer` package of
gravity-transmitter-postgres.  Each definition mirrors the Go function
of the same name in the source file; stateful parts (the command
channel, the database transaction loop) are embedded as explicit
return values and event traces.
-/

instance {ε α : Type} [DecidableEq ε] [DecidableEq α] : DecidableEq (Except ε α) :=
  fun x y =>
    match x, y with
    | Except.ok a, Except.ok b =>
      if h : a = b then isTrue (congrArg Except.ok h)
      else isFalse (fun he => h (Except.ok.inj he))
    | Except.error a, Except.error b =>
      if h : a = b then isTrue (congrArg Except.error h)
      else isFalse (fun he => h (Except.error.inj he))
    | Except.ok _, Except.error _ => isFalse (fun he => Except.noConfusion he)
    | Except.error _, Except.ok _ => isFalse (fun he => Except.noConfusion he)

namespace Writer

/-- A decoded field value.  The Go code carries values as `interface{}`
after decoding them with the SDK helper `GetValue` (external to this
repository); the embedding works with already-decoded values and a
small concrete universe sufficient for the spec's scenarios. -/
inductive Value where
  | intV (i : Int)
  | strV (s : String)
deriving DecidableEq

/-- One field of a record: `Field{Name, Value}` of the gravity SDK. -/
structure Field where
  Name : String
  Value : Value
deriving DecidableEq

/-- The record method enum.  `OTHER` stands for every enum value other
than INSERT, UPDATE and DELETE. -/
inductive Method where
  | INSERT
  | UPDATE
  | DELETE
  | OTHER (code : Int)
deriving DecidableEq

/-- A CDC record, mirroring `gravity_sdk_types_record.Record`
(the fields this core reads). -/
structure Record where
  Method : Method
  Table : String
  PrimaryKey : String
  Fields : List Field
deriving DecidableEq

/-- A Go `map[string]interface{}` with deterministic insertion order,
modelled as an association list with unique keys. -/
abbrev StrMap := List (String × Value)

/-- Go map assignment `m[k] = v`: overwrite the binding of `k` when
present, otherwise append it. -/
def mapSet : StrMap → String → Value → StrMap
  | [], k, v => [(k, v)]
  | p :: m, k, v => if p.1 = k then (k, v) :: m else p :: mapSet m k v

/-- Go map read `m[k]` (the mapping the Go map denotes, independent of
the representation order). -/
def lookupStr : StrMap → String → Option Value
  | [], _ => none
  | p :: m, k => if p.1 = k then some p.2 else lookupStr m k

/-- `gravity_sdk_types_record.ColumnDef`: the Go code fills `Value`
with the field name. -/
structure ColumnDef where
  ColumnName : String
  Value : String
  BindingName : String
deriving DecidableEq

/-- `gravity_sdk_types_record.RecordDef`. -/
structure RecordDef where
  HasPrimary : Bool
  PrimaryColumn : String
  Values : StrMap
  ColumnDefs : List ColumnDef
deriving DecidableEq

/-- The field-scanning loop of `Writer.GetDefinition`
(`for n, field := range record.Fields`): `n` is the running index over
all fields; a field whose name equals the primary key is bound as
`primary_val` and skipped (`continue`), every other field is bound as
`val_<n>` and appended to `ColumnDefs`. -/
def scanFields (pk : String) : Nat → List Field → RecordDef → RecordDef
  | _, [], d => d
  | n, f :: rest, d =>
    if pk = f.Name then
      scanFields pk (n + 1) rest
        { d with HasPrimary := true, PrimaryColumn := f.Name,
                 Values := mapSet d.Values "primary_val" f.Value }
    else
      scanFields pk (n + 1) rest
        { d with Values := mapSet d.Values ("val_" ++ toString n) f.Value,
                 ColumnDefs := d.ColumnDefs ++ [⟨f.Name, f.Name, "val_" ++ toString n⟩] }

/-- `Writer.GetDefinition`: scan the fields, then fail with
`"Not found primary key"` iff `PrimaryKey` is non-empty but no field
resolved it. -/
def GetDefinition (record : Record) : Except String RecordDef :=
  let d := scanFields record.PrimaryKey 0 record.Fields ⟨false, "", [], []⟩
  if record.PrimaryKey.length > 0 && !d.HasPrimary then
    Except.error "Not found primary key"
  else
    Except.ok d

/-- A queued write unit (`DBCommand`, modelled from its use sites in
the writer: fields `Reference`, `Record`, `QueryStr`, `Args`).  The
opaque `interface{}` reference token is embedded as a `Nat`. -/
structure DBCommand where
  Reference : Nat
  Record : Record
  QueryStr : String
  Args : StrMap
deriving DecidableEq

/-- `Writer.insert`: builds the column and binding lists (primary
column first when present, bound as `:primary_val`), renders
`InsertTemplate` and enqueues one command.  Enqueued commands are
returned as a list. -/
def insert (reference : Nat) (record : Record) (table : String)
    (recordDef : RecordDef) : List DBCommand :=
  let colNames :=
    (if recordDef.HasPrimary then ["\"" ++ recordDef.PrimaryColumn ++ "\""] else []) ++
      recordDef.ColumnDefs.map (fun d => "\"" ++ d.ColumnName ++ "\"")
  let valNames :=
    (if recordDef.HasPrimary then [":primary_val"] else []) ++
      recordDef.ColumnDefs.map (fun d => ":" ++ d.BindingName)
  let insertStr :=
    "INSERT INTO \"" ++ table ++ "\" (" ++ String.intercalate "," colNames ++
      ") VALUES (" ++ String.intercalate "," valNames ++ ")"
  [⟨reference, record, insertStr, recordDef.Values⟩]

/-- `Writer.update`: renders `UpdateTemplate` from the column
definitions and enqueues one command. -/
def update (reference : Nat) (record : Record) (table : String)
    (recordDef : RecordDef) : List DBCommand :=
  let updates := recordDef.ColumnDefs.map
    (fun d => "\"" ++ d.ColumnName ++ "\" = :" ++ d.BindingName)
  let updateStr := String.intercalate "," updates
  let sqlStr := "UPDATE \"" ++ table ++ "\" SET " ++ updateStr ++
    " WHERE \"" ++ recordDef.PrimaryColumn ++ "\" = :primary_val"
  [⟨reference, record, sqlStr, recordDef.Values⟩]

/-- `Writer.InsertRecord`. -/
def InsertRecord (reference : Nat) (record : Record) : Except String (List DBCommand) :=
  match GetDefinition record with
  | Except.error e => Except.error e
  | Except.ok recordDef => Except.ok (insert reference record record.Table recordDef)

/-- `Writer.UpdateRecord`: ignore the record (no command, no error)
when no primary key was resolved. -/
def UpdateRecord (reference : Nat) (record : Record) : Except String (List DBCommand) :=
  match GetDefinition record with
  | Except.error e => Except.error e
  | Except.ok recordDef =>
    if recordDef.HasPrimary = false then Except.ok []
    else Except.ok (update reference record record.Table recordDef)

/-- `Writer.DeleteRecord`: nothing to do on an empty primary key;
otherwise enqueue a command for the first field whose name matches
(the Go loop breaks after the first match), and silently do nothing
when no field matches. -/
def DeleteRecord (reference : Nat) (record : Record) : Except String (List DBCommand) :=
  if record.PrimaryKey = "" then Except.ok []
  else
    match record.Fields.find? (fun f => record.PrimaryKey = f.Name) with
    | some f =>
      Except.ok [⟨reference, record,
        "DELETE FROM \"" ++ record.Table ++ "\" WHERE \"" ++ f.Name ++ "\" = :primary_val",
        [("primary_val", f.Value)]⟩]
    | none => Except.ok []

/-- `Writer.ProcessData` (the public per-record entry point): dispatch
on the method; any other method falls through to `return nil`. -/
def ProcessData (reference : Nat) (record : Record) : Except String (List DBCommand) :=
  match record.Method with
  | Method.DELETE => DeleteRecord reference record
  | Method.UPDATE => UpdateRecord reference record
  | Method.INSERT => InsertRecord reference record
  | Method.OTHER _ => Except.ok []

/-! ## Batch Writer (`Writer.processData`)

`processData` executes one chunk of commands inside one transaction,
looping forever until a commit succeeds; afterwards it invokes the
completion handler once per command.  The interaction with the
database is embedded as an event trace driven by the database's
response to each attempt. -/

/-- Observable events of one `processData` run.  `rollback` records the
transaction handle it is invoked on (`none` models the nil handle
returned by a failed `Beginx`); `wait` records the retry delay in
seconds (`<-time.After(time.Second * 5)`); `complete` records the
command passed to the completion handler. -/
inductive DbEvent where
  | beginTx
  | exec (cmd : DBCommand)
  | commitOk
  | commitFailed
  | rollback (tx : Option Unit)
  | wait (secs : Nat)
  | complete (cmd : DBCommand)
deriving DecidableEq

/-- How the database answers one attempt of the loop: `Beginx` fails,
the `k`-th `NamedExec` (0-based) fails, `Commit` fails, or everything
succeeds. -/
inductive Outcome where
  | beginFail
  | execFail (k : Nat)
  | commitFail
  | success
deriving DecidableEq

/-- Events of one failing attempt, following the corresponding branch
of `processData`:
* `Beginx` error: `tx.Rollback()` is invoked on the nil handle
  (`rollback none`), then the 5 s retry wait;
* `NamedExec` error on the `k`-th command: the commands up to and
  including the failing one were submitted, then rollback, wait,
  `goto LOOP`;
* `Commit` error: all commands were submitted, the commit attempt
  failed, then rollback, wait. -/
def failTrace (chunk : List DBCommand) : Outcome → List DbEvent
  | Outcome.beginFail => [DbEvent.beginTx, DbEvent.rollback none, DbEvent.wait 5]
  | Outcome.execFail k =>
    DbEvent.beginTx :: (chunk.take (k + 1)).map DbEvent.exec ++
      [DbEvent.rollback (some ()), DbEvent.wait 5]
  | Outcome.commitFail =>
    DbEvent.beginTx :: chunk.map DbEvent.exec ++
      [DbEvent.commitFailed, DbEvent.rollback (some ()), DbEvent.wait 5]
  | Outcome.success => []

/-- Events of the successful attempt: begin, every command in chunk
order, commit; then (after `break`) the completion handler is invoked
once per command, in chunk order, with the command itself
(`writer.completionHandler(database.DBCommand(cmd))`). -/
def successTrace (chunk : List DBCommand) : List DbEvent :=
  DbEvent.beginTx :: chunk.map DbEvent.exec ++
    DbEvent.commitOk :: chunk.map DbEvent.complete

/-- The full event trace of `processData` on a chunk, driven by the
list of database responses; the loop stops at the first successful
attempt and every retry re-runs the same whole chunk. An exhausted
response list leaves the loop still retrying, producing no further
events. -/
def processDataTrace (chunk : List DBCommand) : List Outcome → List DbEvent
  | [] => []
  | Outcome.success :: _ => successTrace chunk
  | o :: rest => failTrace chunk o ++ processDataTrace chunk rest

/-- The commands submitted (`NamedExec`) in a trace, in order. -/
def execsOf (t : List DbEvent) : List DBCommand :=
  t.filterMap (fun e => match e with | DbEvent.exec c => some c | _ => none)

/-- The commands passed to the completion handler in a trace, in order. -/
def completesOf (t : List DbEvent) : List DBCommand :=
  t.filterMap (fun e => match e with | DbEvent.complete c => some c | _ => none)

/-- Scanning the trace left to right, no completion-handler call occurs
before a successful commit. -/
def noCompleteBeforeCommit : List DbEvent → Bool
  | [] => true
  | DbEvent.commitOk :: _ => true
  | DbEvent.complete _ :: _ => false
  | _ :: rest => noCompleteBeforeCommit rest

/-- Whether some attempt in the response list succeeds. -/
def hasSuccess (outcomes : List Outcome) : Bool :=
  outcomes.any (fun o => o = Outcome.success)

/-- The value of the last field (in iteration order) whose name equals
`pk`, if any: with Go map semantics, later assignments to
`primary_val` overwrite earlier ones. -/
def lastMatch (pk : String) : List Field → Option Value
  | [] => none
  | f :: rest =>
    match lastMatch pk rest with
    | some v => some v
    | none => if pk = f.Name then some f.Value else none

/-! ## Concrete records used by the spec's scenarios and witnesses -/

/-- Scenario 1 and 2 record of the spec. -/
def scenario1Record : Record :=
  ⟨Method.INSERT, "users", "id", [⟨"id", Value.intV 7⟩, ⟨"name", Value.strV "ann"⟩]⟩

/-- Scenario 3 record of the spec. -/
def scenario3Record : Record :=
  ⟨Method.DELETE, "users", "id", [⟨"id", Value.intV 7⟩]⟩

/-- The record definition `GetDefinition` derives from the Scenario 1
record. -/
def scenario1Def : RecordDef :=
  ⟨true, "id", [("primary_val", Value.intV 7), ("val_1", Value.strV "ann")],
    [⟨"name", "name", "val_1"⟩]⟩

/-- A DELETE record whose non-empty primary key resolves no field. -/
def deleteUnresolvedRecord : Record :=
  ⟨Method.DELETE, "users", "id", [⟨"name", Value.strV "x"⟩]⟩

/-- An INSERT record whose non-empty primary key resolves no field. -/
def insertUnresolvedRecord : Record :=
  ⟨Method.INSERT, "users", "id", [⟨"name", Value.strV "x"⟩]⟩

/-- An UPDATE record with empty primary key and a field whose name is
empty as well. -/
def updateEmptyNameRecord : Record :=
  ⟨Method.UPDATE, "t", "", [⟨"", Value.intV 1⟩]⟩

/-- A DELETE record with empty primary key. -/
def deleteEmptyPkRecord : Record :=
  ⟨Method.DELETE, "t", "", [⟨"a", Value.intV 1⟩]⟩

/-- A one-command chunk used to instantiate the batch-writer theorems. -/
def chunkExample : List DBCommand :=
  [⟨0, scenario3Record, "DELETE FROM \"users\" WHERE \"id\" = :primary_val",
    [("primary_val", Value.intV 7)]⟩]

/-! ## Helper lemmas -/

/-- `scanFields` appends one `ColumnDef` per non-primary field, in
field order; the binding index is the field's position among all
fields (the Go loop index `n`). -/
theorem scanFields_columnDefs (pk : String) :
    ∀ (fields : List Field) (n : Nat) (d : RecordDef),
      (scanFields pk n fields d).ColumnDefs =
        d.ColumnDefs ++
          ((List.enumFrom n fields).filter (fun p => pk ≠ p.2.Name)).map
            (fun p => ColumnDef.mk p.2.Name p.2.Name ("val_" ++ toString p.1))
  | [], _, _ => by simp [scanFields]
  | f :: rest, n, d => by
    by_cases h : pk = f.Name
    · subst h
      simp [scanFields, List.enumFrom, scanFields_columnDefs f.Name rest (n + 1)]
    · simp [scanFields, h, List.enumFrom, scanFields_columnDefs pk rest (n + 1)]

/-- `scanFields` sets `HasPrimary` iff some field name equals the
primary key (or it was already set). -/
theorem scanFields_hasPrimary (pk : String) :
    ∀ (fields : List Field) (n : Nat) (d : RecordDef),
      (scanFields pk n fields d).HasPrimary =
        (d.HasPrimary || fields.any (fun f => pk = f.Name))
  | [], _, _ => by simp [scanFields]
  | f :: rest, n, d => by
    by_cases h : pk = f.Name
    · subst h
      simp [scanFields, scanFields_hasPrimary f.Name rest (n + 1)]
    · simp [scanFields, h, scanFields_hasPrimary pk rest (n + 1)]

/-- A successful `GetDefinition` returns exactly the scan of the fields
from the empty definition. -/
theorem GetDefinition_ok_eq (record : Record) (d : RecordDef)
    (h : GetDefinition record = Except.ok d) :
    d = scanFields record.PrimaryKey 0 record.Fields ⟨false, "", [], []⟩ := by
  simp only [GetDefinition] at h
  split at h
  · exact absurd h (by simp)
  · exact (Except.ok.inj h).symm

/-- A non-empty string has positive length. -/
theorem str_length_pos : ∀ {s : String}, s ≠ "" → 0 < s.length
  | ⟨[]⟩, h => absurd rfl h
  | ⟨_ :: cs⟩, _ => Nat.succ_pos cs.length

/-- Reading back the key just assigned. -/
theorem lookupStr_mapSet_same : ∀ (m : StrMap) (k : String) (v : Value),
    lookupStr (mapSet m k v) k = some v
  | [], _, _ => by simp [mapSet, lookupStr]
  | p :: m, k, v => by
    by_cases h : p.1 = k
    · simp [mapSet, lookupStr, h]
    · simp [mapSet, lookupStr, h, lookupStr_mapSet_same m k v]

/-- Assigning one key leaves the others unchanged. -/
theorem lookupStr_mapSet_other : ∀ (m : StrMap) (k k2 : String) (v : Value),
    k2 ≠ k → lookupStr (mapSet m k v) k2 = lookupStr m k2
  | [], k, k2, v, h => by simp [mapSet, lookupStr, Ne.symm h]
  | p :: m, k, k2, v, h => by
    by_cases hp : p.1 = k
    · simp [mapSet, lookupStr, hp, Ne.symm h]
    · simp [mapSet, lookupStr, hp, lookupStr_mapSet_other m k k2 v h]

/-- The reserved binding name never collides with a positional binding
name. -/
theorem primary_val_ne_val (s : String) : "primary_val" ≠ "val_" ++ s := by
  intro h
  have hd := congrArg String.data h
  rw [String.data_append] at hd
  simp at hd

/-- `scanFields` binds `primary_val` to the last field resolving the
primary key, and leaves it untouched when no field resolves it. -/
theorem scanFields_primary_val (pk : String) :
    ∀ (fields : List Field) (n : Nat) (d : RecordDef),
      lookupStr (scanFields pk n fields d).Values "primary_val" =
        match lastMatch pk fields with
        | some v => some v
        | none => lookupStr d.Values "primary_val"
  | [], _, _ => by simp [scanFields, lastMatch]
  | f :: rest, n, d => by
    by_cases h : pk = f.Name
    · subst h
      rw [scanFields, if_pos rfl, scanFields_primary_val f.Name rest (n + 1)]
      cases hm : lastMatch f.Name rest with
      | some v => simp [lastMatch, hm]
      | none => simp [lastMatch, hm, lookupStr_mapSet_same]
    · rw [scanFields, if_neg h, scanFields_primary_val pk rest (n + 1)]
      cases hm : lastMatch pk rest with
      | some v => simp [lastMatch, hm]
      | none =>
        simp [lastMatch, hm, h,
          lookupStr_mapSet_other _ _ _ _ (primary_val_ne_val (toString n))]

/-- Filtering and projecting an enumeration is filtering and mapping
the underlying list. -/
theorem enumFrom_filter_map_snd {α β : Type} (pred : α → Bool) (g : α → β) :
    ∀ (n : Nat) (l : List α),
      ((List.enumFrom n l).filter (fun p => pred p.2)).map (fun p => g p.2) =
        (l.filter pred).map g
  | _, [] => by simp
  | n, x :: xs => by
    by_cases h : pred x
    · simp [List.enumFrom, h, enumFrom_filter_map_snd pred g (n + 1) xs]
    · simp [List.enumFrom, h, enumFrom_filter_map_snd pred g (n + 1) xs]

/-- When the primary key is non-empty and no field resolves it,
`GetDefinition` fails with the missing-primary-key error. -/
theorem GetDefinition_error_of (record : Record)
    (hpk : record.PrimaryKey ≠ "")
    (hnone : ∀ f ∈ record.Fields, record.PrimaryKey ≠ f.Name) :
    GetDefinition record = Except.error "Not found primary key" := by
  have hp := scanFields_hasPrimary record.PrimaryKey record.Fields 0 ⟨false, "", [], []⟩
  have hany : record.Fields.any (fun f => record.PrimaryKey = f.Name) = false := by
    simp only [List.any_eq_false, decide_eq_true_eq]
    exact hnone
  simp [GetDefinition, hp, hany, str_length_pos hpk]

/-- Events that are neither a completion call nor a successful commit
do not affect `noCompleteBeforeCommit`. -/
theorem noComplete_noCommit_append :
    ∀ (t rest : List DbEvent),
      (∀ c, DbEvent.complete c ∉ t) → DbEvent.commitOk ∉ t →
      noCompleteBeforeCommit (t ++ rest) = noCompleteBeforeCommit rest
  | [], _, _, _ => rfl
  | e :: t, rest, h1, h2 => by
    have h1t : ∀ c, DbEvent.complete c ∉ t := fun c hc => h1 c (List.mem_cons_of_mem _ hc)
    have h2t : DbEvent.commitOk ∉ t := fun hc => h2 (List.mem_cons_of_mem _ hc)
    have ih := noComplete_noCommit_append t rest h1t h2t
    cases e with
    | complete c => exact absurd (List.mem_cons_self _ _) (h1 c)
    | commitOk => exact absurd (List.mem_cons_self _ _) h2
    | beginTx => simpa [noCompleteBeforeCommit] using ih
    | exec c => simpa [noCompleteBeforeCommit] using ih
    | commitFailed => simpa [noCompleteBeforeCommit] using ih
    | rollback h => simpa [noCompleteBeforeCommit] using ih
    | wait s => simpa [noCompleteBeforeCommit] using ih

/-- A prefix of submitted statements contains no completion event. -/
theorem complete_not_mem_take (c : DBCommand) (n : Nat) (l : List DBCommand) :
    DbEvent.complete c ∉ (l.map DbEvent.exec).take n := fun h => by
  have hm := (List.take_subset n (l.map DbEvent.exec)) h
  simp at hm

/-- A prefix of submitted statements contains no successful commit. -/
theorem commitOk_not_mem_take (n : Nat) (l : List DBCommand) :
    DbEvent.commitOk ∉ (l.map DbEvent.exec).take n := fun h => by
  have hm := (List.take_subset n (l.map DbEvent.exec)) h
  simp at hm

/-- A failing attempt neither commits nor invokes the completion
handler. -/
theorem failTrace_no_complete (chunk : List DBCommand) (o : Outcome) :
    (∀ c, DbEvent.complete c ∉ failTrace chunk o) ∧
      DbEvent.commitOk ∉ failTrace chunk o := by
  cases o <;>
    simp [failTrace, complete_not_mem_take, commitOk_not_mem_take]

/-- The successful attempt commits before any completion call. -/
theorem noCompleteBeforeCommit_successTrace (chunk : List DBCommand) :
    noCompleteBeforeCommit (successTrace chunk) = true := by
  have h1 : ∀ c, DbEvent.complete c ∉ DbEvent.beginTx :: chunk.map DbEvent.exec := by simp
  have h2 : DbEvent.commitOk ∉ DbEvent.beginTx :: chunk.map DbEvent.exec := by simp
  have hs : successTrace chunk =
      (DbEvent.beginTx :: chunk.map DbEvent.exec) ++
        DbEvent.commitOk :: chunk.map DbEvent.complete := by
    simp [successTrace]
  rw [hs, noComplete_noCommit_append _ _ h1 h2]
  rfl

/-- No completion call occurs before the successful commit, for every
chunk and every database behavior. -/
theorem noCompleteBeforeCommit_trace (chunk : List DBCommand) :
    ∀ (outcomes : List Outcome),
      noCompleteBeforeCommit (processDataTrace chunk outcomes) = true
  | [] => rfl
  | o :: rest => by
    have ih := noCompleteBeforeCommit_trace chunk rest
    cases o with
    | success => exact noCompleteBeforeCommit_successTrace chunk
    | beginFail =>
      rw [show processDataTrace chunk (Outcome.beginFail :: rest) =
            failTrace chunk Outcome.beginFail ++ processDataTrace chunk rest from rfl,
        noComplete_noCommit_append _ _ (failTrace_no_complete chunk _).1
          (failTrace_no_complete chunk _).2]
      exact ih
    | execFail k =>
      rw [show processDataTrace chunk (Outcome.execFail k :: rest) =
            failTrace chunk (Outcome.execFail k) ++ processDataTrace chunk rest from rfl,
        noComplete_noCommit_append _ _ (failTrace_no_complete chunk _).1
          (failTrace_no_complete chunk _).2]
      exact ih
    | commitFail =>
      rw [show processDataTrace chunk (Outcome.commitFail :: rest) =
            failTrace chunk Outcome.commitFail ++ processDataTrace chunk rest from rfl,
        noComplete_noCommit_append _ _ (failTrace_no_complete chunk _).1
          (failTrace_no_complete chunk _).2]
      exact ih

/-- `completesOf` distributes over concatenation. -/
theorem completesOf_append (s t : List DbEvent) :
    completesOf (s ++ t) = completesOf s ++ completesOf t :=
  List.filterMap_append s t _

/-- `execsOf` distributes over concatenation. -/
theorem execsOf_append (s t : List DbEvent) :
    execsOf (s ++ t) = execsOf s ++ execsOf t :=
  List.filterMap_append s t _

theorem completesOf_cons_beginTx (t : List DbEvent) :
    completesOf (DbEvent.beginTx :: t) = completesOf t := rfl

theorem completesOf_cons_exec (c : DBCommand) (t : List DbEvent) :
    completesOf (DbEvent.exec c :: t) = completesOf t := rfl

theorem completesOf_cons_commitOk (t : List DbEvent) :
    completesOf (DbEvent.commitOk :: t) = completesOf t := rfl

theorem completesOf_cons_commitFailed (t : List DbEvent) :
    completesOf (DbEvent.commitFailed :: t) = completesOf t := rfl

theorem completesOf_cons_rollback (h : Option Unit) (t : List DbEvent) :
    completesOf (DbEvent.rollback h :: t) = completesOf t := rfl

theorem completesOf_cons_wait (s : Nat) (t : List DbEvent) :
    completesOf (DbEvent.wait s :: t) = completesOf t := rfl

theorem completesOf_cons_complete (c : DBCommand) (t : List DbEvent) :
    completesOf (DbEvent.complete c :: t) = c :: completesOf t := rfl

theorem execsOf_cons_beginTx (t : List DbEvent) :
    execsOf (DbEvent.beginTx :: t) = execsOf t := rfl

theorem execsOf_cons_exec (c : DBCommand) (t : List DbEvent) :
    execsOf (DbEvent.exec c :: t) = c :: execsOf t := rfl

theorem execsOf_cons_commitOk (t : List DbEvent) :
    execsOf (DbEvent.commitOk :: t) = execsOf t := rfl

theorem execsOf_cons_complete (c : DBCommand) (t : List DbEvent) :
    execsOf (DbEvent.complete c :: t) = execsOf t := rfl

/-- Submitted statements produce no completion events. -/
theorem completesOf_map_exec : ∀ (l : List DBCommand),
    completesOf (l.map DbEvent.exec) = []
  | [] => rfl
  | c :: l => by
    rw [List.map_cons, completesOf_cons_exec, completesOf_map_exec l]

/-- Completion events list exactly the commands they carry, in order. -/
theorem completesOf_map_complete : ∀ (l : List DBCommand),
    completesOf (l.map DbEvent.complete) = l
  | [] => rfl
  | c :: l => by
    rw [List.map_cons, completesOf_cons_complete, completesOf_map_complete l]

/-- Submission events list exactly the commands they carry, in order. -/
theorem execsOf_map_exec : ∀ (l : List DBCommand),
    execsOf (l.map DbEvent.exec) = l
  | [] => rfl
  | c :: l => by
    rw [List.map_cons, execsOf_cons_exec, execsOf_map_exec l]

/-- Completion events produce no submission events. -/
theorem execsOf_map_complete : ∀ (l : List DBCommand),
    execsOf (l.map DbEvent.complete) = []
  | [] => rfl
  | c :: l => by
    rw [List.map_cons, execsOf_cons_complete, execsOf_map_complete l]

/-- Failing attempts invoke no completion handler. -/
theorem completesOf_failTrace (chunk : List DBCommand) (o : Outcome) :
    completesOf (failTrace chunk o) = [] := by
  cases o with
  | beginFail => rfl
  | success => rfl
  | execFail k =>
    have hshape : failTrace chunk (Outcome.execFail k) =
        (DbEvent.beginTx :: (chunk.take (k + 1)).map DbEvent.exec) ++
          [DbEvent.rollback (some ()), DbEvent.wait 5] := by
      simp [failTrace]
    rw [hshape, completesOf_append, completesOf_cons_beginTx, completesOf_map_exec]
    rfl
  | commitFail =>
    have hshape : failTrace chunk Outcome.commitFail =
        (DbEvent.beginTx :: chunk.map DbEvent.exec) ++
          [DbEvent.commitFailed, DbEvent.rollback (some ()), DbEvent.wait 5] := by
      simp [failTrace]
    rw [hshape, completesOf_append, completesOf_cons_beginTx, completesOf_map_exec]
    rfl

/-- The successful attempt invokes the completion handler once per
command, in chunk order, with the command itself. -/
theorem completesOf_successTrace (chunk : List DBCommand) :
    completesOf (successTrace chunk) = chunk := by
  have hshape : successTrace chunk =
      (DbEvent.beginTx :: chunk.map DbEvent.exec) ++
        DbEvent.commitOk :: chunk.map DbEvent.complete := by
    simp [successTrace]
  rw [hshape, completesOf_append, completesOf_cons_beginTx, completesOf_map_exec,
    completesOf_cons_commitOk, completesOf_map_complete]
  rfl

/-- The successful attempt submits exactly the whole chunk, in order. -/
theorem execsOf_successTrace (chunk : List DBCommand) :
    execsOf (successTrace chunk) = chunk := by
  have hshape : successTrace chunk =
      (DbEvent.beginTx :: chunk.map DbEvent.exec) ++
        DbEvent.commitOk :: chunk.map DbEvent.complete := by
    simp [successTrace]
  rw [hshape, execsOf_append, execsOf_cons_beginTx, execsOf_map_exec,
    execsOf_cons_commitOk, execsOf_map_complete, List.append_nil]

/-- The completion calls of a whole run: the full chunk in order when
some attempt succeeds, none otherwise. -/
theorem completesOf_trace (chunk : List DBCommand) :
    ∀ (outcomes : List Outcome),
      completesOf (processDataTrace chunk outcomes) =
        if hasSuccess outcomes then chunk else []
  | [] => by simp [processDataTrace, completesOf, hasSuccess]
  | o :: rest => by
    have ih := completesOf_trace chunk rest
    cases o with
    | success => simp [processDataTrace, hasSuccess, completesOf_successTrace]
    | beginFail =>
      rw [show processDataTrace chunk (Outcome.beginFail :: rest) =
            failTrace chunk Outcome.beginFail ++ processDataTrace chunk rest from rfl,
        completesOf_append, completesOf_failTrace, ih]
      simp [hasSuccess]
    | execFail k =>
      rw [show processDataTrace chunk (Outcome.execFail k :: rest) =
            failTrace chunk (Outcome.execFail k) ++ processDataTrace chunk rest from rfl,
        completesOf_append, completesOf_failTrace, ih]
      simp [hasSuccess]
    | commitFail =>
      rw [show processDataTrace chunk (Outcome.commitFail :: rest) =
            failTrace chunk Outcome.commitFail ++ processDataTrace chunk rest from rfl,
        completesOf_append, completesOf_failTrace, ih]
      simp [hasSuccess]

/-- Literal merge of a colon with a positional binding name. -/
theorem colon_val_merge (x : String) : ":" ++ ("val_" ++ x) = ":val_" ++ x := by
  rw [← String.append_assoc]
  rfl

/-- Literal merge around an empty SET list: the template leaves two
spaces. -/
theorem set_where_merge (x : String) :
    "\" SET " ++ (" WHERE \"" ++ x) = "\" SET  WHERE \"" ++ x := by
  rw [← String.append_assoc]
  rfl

/-! ## Claim theorems -/

/-- C8: for every Record whose Method is none of INSERT, UPDATE,
DELETE, processing returns no error and enqueues no Command. -/
theorem c8_unknown_method (reference : Nat) (code : Int) (table pk : String)
    (fields : List Field) :
    ProcessData reference ⟨Method.OTHER code, table, pk, fields⟩ = Except.ok [] := rfl

/-- C9: whenever beginning the transaction fails, the error branch of
`processData` invokes `Rollback` on the nil transaction handle
returned by the failed `Beginx` (`rollback none`) before waiting the
retry delay, rather than skipping the rollback. -/
theorem c9_nil_rollback_on_begin_failure (chunk : List DBCommand) (rest : List Outcome) :
    processDataTrace chunk (Outcome.beginFail :: rest) =
      DbEvent.beginTx :: DbEvent.rollback none :: DbEvent.wait 5 ::
        processDataTrace chunk rest := rfl

/-- C10: an UPDATE record whose fields consist solely of the field
resolving the primary key still enqueues one Command, whose query has
an empty SET list (two spaces between `SET` and `WHERE`) and whose
Args contain only `primary_val`. -/
theorem c10_empty_set_update (reference : Nat) (table pk : String) (v : Value) :
    ProcessData reference ⟨Method.UPDATE, table, pk, [⟨pk, v⟩]⟩ =
      Except.ok [⟨reference, ⟨Method.UPDATE, table, pk, [⟨pk, v⟩]⟩,
        "UPDATE \"" ++ table ++ "\" SET  WHERE \"" ++ pk ++ "\" = :primary_val",
        [("primary_val", v)]⟩] := by
  have hok : GetDefinition ⟨Method.UPDATE, table, pk, [⟨pk, v⟩]⟩ =
      Except.ok ⟨true, pk, [("primary_val", v)], []⟩ := by
    simp [GetDefinition, scanFields, mapSet]
  simp [ProcessData, UpdateRecord, hok, update, String.intercalate,
    String.append_empty, String.append_assoc, set_where_merge]

/-- C7: a DELETE record whose non-empty primary key resolves to a
field enqueues exactly one Command with the delete template and only
`primary_val` bound to that field's value. -/
theorem c7_delete_query (reference : Nat) (record : Record) (f : Field)
    (hm : record.Method = Method.DELETE)
    (hpk : record.PrimaryKey ≠ "")
    (hf : record.Fields.find? (fun g => record.PrimaryKey = g.Name) = some f) :
    ProcessData reference record = Except.ok [⟨reference, record,
      "DELETE FROM \"" ++ record.Table ++ "\" WHERE \"" ++ f.Name ++ "\" = :primary_val",
      [("primary_val", f.Value)]⟩] := by
  simp [ProcessData, hm, DeleteRecord, hpk, hf]

/-- Witness for C7 at the Scenario 3 record. -/
theorem c7_delete_query_witness :
    scenario3Record.Method = Method.DELETE ∧
    scenario3Record.PrimaryKey ≠ "" ∧
    scenario3Record.Fields.find? (fun g => scenario3Record.PrimaryKey = g.Name) =
      some ⟨"id", Value.intV 7⟩ ∧
    ProcessData 0 scenario3Record = Except.ok [⟨0, scenario3Record,
      "DELETE FROM \"" ++ scenario3Record.Table ++ "\" WHERE \"" ++
        Field.Name ⟨"id", Value.intV 7⟩ ++ "\" = :primary_val",
      [("primary_val", Field.Value ⟨"id", Value.intV 7⟩)]⟩] :=
  ⟨rfl, by decide, rfl,
    c7_delete_query 0 scenario3Record ⟨"id", Value.intV 7⟩ rfl (by decide) rfl⟩

/-- C4 (counterexample): a DELETE record whose non-empty primary key
matches no field name returns no error (and enqueues nothing), instead
of the claimed `MissingPrimaryKeyError`. -/
theorem c4_counterexample :
    ProcessData 0 deleteUnresolvedRecord = Except.ok [] ∧
    ProcessData 0 deleteUnresolvedRecord ≠ Except.error "Not found primary key" := by
  exact ⟨rfl, by decide⟩

/-- C4 (amended): a record whose non-empty primary key matches no
field name yields `MissingPrimaryKeyError` and no Command for INSERT
and UPDATE; for DELETE it is a silent no-op (no error, no Command). -/
theorem c4_unresolved_primary_key (reference : Nat) (record : Record)
    (hpk : record.PrimaryKey ≠ "")
    (hnone : ∀ f ∈ record.Fields, record.PrimaryKey ≠ f.Name) :
    ((record.Method = Method.INSERT ∨ record.Method = Method.UPDATE) →
      ProcessData reference record = Except.error "Not found primary key") ∧
    (record.Method = Method.DELETE → ProcessData reference record = Except.ok []) := by
  have herr := GetDefinition_error_of record hpk hnone
  constructor
  · rintro (hm | hm) <;>
      simp [ProcessData, hm, InsertRecord, UpdateRecord, herr]
  · intro hm
    have hfind : record.Fields.find? (fun f => record.PrimaryKey = f.Name) = none := by
      rw [List.find?_eq_none]
      intro f hf
      simpa using hnone f hf
    simp [ProcessData, hm, DeleteRecord, hpk, hfind]

/-- Witness for C4 at a concrete unresolved-primary-key record. -/
theorem c4_unresolved_primary_key_witness :
    insertUnresolvedRecord.PrimaryKey ≠ "" ∧
    (∀ f ∈ insertUnresolvedRecord.Fields, insertUnresolvedRecord.PrimaryKey ≠ f.Name) ∧
    (((insertUnresolvedRecord.Method = Method.INSERT ∨
        insertUnresolvedRecord.Method = Method.UPDATE) →
      ProcessData 3 insertUnresolvedRecord = Except.error "Not found primary key") ∧
     (insertUnresolvedRecord.Method = Method.DELETE →
      ProcessData 3 insertUnresolvedRecord = Except.ok [])) :=
  ⟨by decide, by decide,
    c4_unresolved_primary_key 3 insertUnresolvedRecord (by decide) (by decide)⟩

/-- C5 (counterexample): an UPDATE record with empty primary key but a
field whose name is also empty enqueues a Command (the empty names
match), contradicting the claimed silent no-op. -/
theorem c5_counterexample :
    ProcessData 0 updateEmptyNameRecord ≠ Except.ok [] ∧
    ProcessData 0 updateEmptyNameRecord = Except.ok [⟨0, updateEmptyNameRecord,
      "UPDATE \"t\" SET  WHERE \"\" = :primary_val",
      [("primary_val", Value.intV 1)]⟩] := by
  exact ⟨by decide, rfl⟩

/-- C5 (amended): a DELETE record with empty primary key is always a
silent no-op; an UPDATE record with empty primary key is a silent
no-op provided no field has an empty name. -/
theorem c5_empty_primary_key (reference : Nat) (record : Record)
    (hpk : record.PrimaryKey = "") :
    (record.Method = Method.DELETE → ProcessData reference record = Except.ok []) ∧
    (record.Method = Method.UPDATE → (∀ f ∈ record.Fields, f.Name ≠ "") →
      ProcessData reference record = Except.ok []) := by
  constructor
  · intro hm
    simp [ProcessData, hm, DeleteRecord, hpk]
  · intro hm hnames
    have hany : record.Fields.any (fun f => record.PrimaryKey = f.Name) = false := by
      simp only [List.any_eq_false, decide_eq_true_eq]
      intro f hf
      rw [hpk]
      exact fun he => hnames f hf he.symm
    have hp := scanFields_hasPrimary record.PrimaryKey record.Fields 0 ⟨false, "", [], []⟩
    have hok : GetDefinition record =
        Except.ok (scanFields record.PrimaryKey 0 record.Fields ⟨false, "", [], []⟩) := by
      simp [GetDefinition, hpk]
    simp [ProcessData, hm, UpdateRecord, hok, hp, hany]

/-- Witness for C5 at a concrete empty-primary-key DELETE record. -/
theorem c5_empty_primary_key_witness :
    deleteEmptyPkRecord.PrimaryKey = "" ∧
    ((deleteEmptyPkRecord.Method = Method.DELETE →
      ProcessData 0 deleteEmptyPkRecord = Except.ok []) ∧
     (deleteEmptyPkRecord.Method = Method.UPDATE →
      (∀ f ∈ deleteEmptyPkRecord.Fields, f.Name ≠ "") →
      ProcessData 0 deleteEmptyPkRecord = Except.ok [])) :=
  ⟨rfl, c5_empty_primary_key 0 deleteEmptyPkRecord rfl⟩

/-- C1 (counterexample): the code numbers bindings by the running
index over all fields, including the primary one, so the Scenario 1
record produces `:val_1` (not the claimed `:val_0`) and binds
`val_1`, not `val_0`. -/
theorem c1_counterexample :
    (ProcessData 0 scenario1Record).map (fun cmds => cmds.map (fun c => c.QueryStr)) =
      Except.ok ["INSERT INTO \"users\" (\"id\",\"name\") VALUES (:primary_val,:val_1)"] ∧
    (ProcessData 0 scenario1Record).map
        (fun cmds => cmds.map (fun c => lookupStr c.Args "val_0")) =
      Except.ok [none] ∧
    ("INSERT INTO \"users\" (\"id\",\"name\") VALUES (:primary_val,:val_1)" : String) ≠
      "INSERT INTO \"users\" (\"id\",\"name\") VALUES (:primary_val,:val_0)" := by
  exact ⟨rfl, rfl, by decide⟩

/-- C1 (amended): translation iterates fields in their given order;
the field whose name equals `PrimaryKey` is mapped to
`Values["primary_val"]` (the last such field when names repeat) and
excluded from `ColumnDefs`; every other field gets binding name
`val_<i>` where `i` is the field's index among all fields (including
the primary), starting at 0; in particular Scenario 1 produces
`INSERT INTO "users" ("id","name") VALUES (:primary_val,:val_1)` with
Args `{primary_val:7, val_1:"ann"}`. -/
theorem c1_binding_names (record : Record) (d : RecordDef)
    (h : GetDefinition record = Except.ok d) :
    d.ColumnDefs =
      ((List.enumFrom 0 record.Fields).filter
          (fun p => record.PrimaryKey ≠ p.2.Name)).map
        (fun p => ColumnDef.mk p.2.Name p.2.Name ("val_" ++ toString p.1)) ∧
    d.HasPrimary = record.Fields.any (fun f => record.PrimaryKey = f.Name) ∧
    lookupStr d.Values "primary_val" = lastMatch record.PrimaryKey record.Fields ∧
    ProcessData 0 scenario1Record = Except.ok [⟨0, scenario1Record,
      "INSERT INTO \"users\" (\"id\",\"name\") VALUES (:primary_val,:val_1)",
      [("primary_val", Value.intV 7), ("val_1", Value.strV "ann")]⟩] := by
  have hd := GetDefinition_ok_eq record d h
  subst hd
  refine ⟨?_, ?_, ?_, rfl⟩
  · rw [scanFields_columnDefs]
    rfl
  · rw [scanFields_hasPrimary]
    simp
  · rw [scanFields_primary_val]
    cases lastMatch record.PrimaryKey record.Fields <;> simp [lookupStr]

/-- Witness for C1 (amended) at the Scenario 1 record. -/
theorem c1_binding_names_witness :
    GetDefinition scenario1Record = Except.ok scenario1Def ∧
    (scenario1Def.ColumnDefs =
      ((List.enumFrom 0 scenario1Record.Fields).filter
          (fun p => scenario1Record.PrimaryKey ≠ p.2.Name)).map
        (fun p => ColumnDef.mk p.2.Name p.2.Name ("val_" ++ toString p.1)) ∧
     scenario1Def.HasPrimary =
      scenario1Record.Fields.any (fun f => scenario1Record.PrimaryKey = f.Name) ∧
     lookupStr scenario1Def.Values "primary_val" =
      lastMatch scenario1Record.PrimaryKey scenario1Record.Fields ∧
     ProcessData 0 scenario1Record = Except.ok [⟨0, scenario1Record,
      "INSERT INTO \"users\" (\"id\",\"name\") VALUES (:primary_val,:val_1)",
      [("primary_val", Value.intV 7), ("val_1", Value.strV "ann")]⟩]) :=
  ⟨rfl, c1_binding_names scenario1Record scenario1Def rfl⟩

/-- C6: every successfully translated INSERT record enqueues one
Command whose query is the insert template with double-quoted
identifiers, the primary column first (bound as `:primary_val`) when
`HasPrimary` holds, followed by the non-primary columns in field order
with their positional bindings. -/
theorem c6_insert_query (reference : Nat) (record : Record) (d : RecordDef)
    (h : GetDefinition record = Except.ok d) :
    InsertRecord reference record = Except.ok [⟨reference, record,
      "INSERT INTO \"" ++ record.Table ++ "\" (" ++
        String.intercalate ","
          ((if d.HasPrimary then ["\"" ++ d.PrimaryColumn ++ "\""] else []) ++
            (record.Fields.filter (fun f => record.PrimaryKey ≠ f.Name)).map
              (fun f => "\"" ++ f.Name ++ "\"")) ++
        ") VALUES (" ++
        String.intercalate ","
          ((if d.HasPrimary then [":primary_val"] else []) ++
            ((List.enumFrom 0 record.Fields).filter
                (fun p => record.PrimaryKey ≠ p.2.Name)).map
              (fun p => ":val_" ++ toString p.1)) ++ ")",
      d.Values⟩] := by
  have hcd := GetDefinition_ok_eq record d h
  have hcols : d.ColumnDefs.map (fun c => "\"" ++ c.ColumnName ++ "\"") =
      (record.Fields.filter (fun f => record.PrimaryKey ≠ f.Name)).map
        (fun f => "\"" ++ f.Name ++ "\"") := by
    rw [hcd, scanFields_columnDefs]
    simp only [RecordDef.ColumnDefs, List.nil_append, List.map_map]
    rw [show ((fun c => "\"" ++ ColumnDef.ColumnName c ++ "\"") ∘
        fun p => ColumnDef.mk p.2.Name p.2.Name ("val_" ++ toString p.1)) =
        (fun p : Nat × Field => "\"" ++ p.2.Name ++ "\"") from rfl]
    exact enumFrom_filter_map_snd (fun f => decide (record.PrimaryKey ≠ f.Name))
      (fun f => "\"" ++ f.Name ++ "\"") 0 record.Fields
  have hbinds : d.ColumnDefs.map (fun c => ":" ++ c.BindingName) =
      ((List.enumFrom 0 record.Fields).filter
          (fun p => record.PrimaryKey ≠ p.2.Name)).map
        (fun p => ":val_" ++ toString p.1) := by
    rw [hcd, scanFields_columnDefs]
    simp only [RecordDef.ColumnDefs, List.nil_append, List.map_map]
    rw [show ((fun c => ":" ++ ColumnDef.BindingName c) ∘
        fun p => ColumnDef.mk p.2.Name p.2.Name ("val_" ++ toString p.1)) =
        (fun p : Nat × Field => ":" ++ ("val_" ++ toString p.1)) from rfl]
    simp only [colon_val_merge]
  simp only [InsertRecord, h, insert, hcols, hbinds]

/-- Witness for C6 at the Scenario 1 record. -/
theorem c6_insert_query_witness :
    GetDefinition scenario1Record = Except.ok scenario1Def ∧
    InsertRecord 5 scenario1Record = Except.ok [⟨5, scenario1Record,
      "INSERT INTO \"" ++ scenario1Record.Table ++ "\" (" ++
        String.intercalate ","
          ((if scenario1Def.HasPrimary then ["\"" ++ scenario1Def.PrimaryColumn ++ "\""] else []) ++
            (scenario1Record.Fields.filter
                (fun f => scenario1Record.PrimaryKey ≠ f.Name)).map
              (fun f => "\"" ++ f.Name ++ "\"")) ++
        ") VALUES (" ++
        String.intercalate ","
          ((if scenario1Def.HasPrimary then [":primary_val"] else []) ++
            ((List.enumFrom 0 scenario1Record.Fields).filter
                (fun p => scenario1Record.PrimaryKey ≠ p.2.Name)).map
              (fun p => ":val_" ++ toString p.1)) ++ ")",
      scenario1Def.Values⟩] :=
  ⟨rfl, c6_insert_query 5 scenario1Record scenario1Def rfl⟩

/-- C2: on every failing attempt (begin, statement or commit failure)
the Batch Writer rolls back, waits the fixed 5-second retry delay, and
restarts with the same entire chunk (the continuation is the run on
the same chunk); no completion call and no successful commit occurs
before the restart, the attempt that eventually succeeds submits
exactly the whole chunk in order, and no completion call ever precedes
the successful commit. -/
theorem c2_retry_whole_chunk (chunk : List DBCommand) (o : Outcome)
    (rest : List Outcome) (hfail : o ≠ Outcome.success) :
    (∃ t h, processDataTrace chunk (o :: rest) =
        t ++ DbEvent.rollback h :: DbEvent.wait 5 :: processDataTrace chunk rest ∧
        (∀ c, DbEvent.complete c ∉ t) ∧ DbEvent.commitOk ∉ t) ∧
    execsOf (successTrace chunk) = chunk ∧
    noCompleteBeforeCommit (processDataTrace chunk (o :: rest)) = true := by
  refine ⟨?_, execsOf_successTrace chunk, noCompleteBeforeCommit_trace chunk _⟩
  cases o with
  | success => exact absurd rfl hfail
  | beginFail =>
    exact ⟨[DbEvent.beginTx], none, rfl, by simp, by simp⟩
  | execFail k =>
    refine ⟨DbEvent.beginTx :: (chunk.take (k + 1)).map DbEvent.exec, some (), ?_, ?_, ?_⟩
    · show failTrace chunk (Outcome.execFail k) ++ processDataTrace chunk rest = _
      simp [failTrace]
    · intro c
      simp [complete_not_mem_take]
    · simp [commitOk_not_mem_take]
  | commitFail =>
    refine ⟨DbEvent.beginTx :: chunk.map DbEvent.exec ++ [DbEvent.commitFailed],
      some (), ?_, ?_, ?_⟩
    · show failTrace chunk Outcome.commitFail ++ processDataTrace chunk rest = _
      simp [failTrace]
    · intro c
      simp
    · simp

/-- Witness for C2: a one-command chunk whose first attempt fails on
its statement and whose second attempt succeeds. -/
theorem c2_retry_whole_chunk_witness :
    Outcome.execFail 0 ≠ Outcome.success ∧
    ((∃ t h, processDataTrace chunkExample (Outcome.execFail 0 :: [Outcome.success]) =
        t ++ DbEvent.rollback h :: DbEvent.wait 5 ::
          processDataTrace chunkExample [Outcome.success] ∧
        (∀ c, DbEvent.complete c ∉ t) ∧ DbEvent.commitOk ∉ t) ∧
     execsOf (successTrace chunkExample) = chunkExample ∧
     noCompleteBeforeCommit
       (processDataTrace chunkExample (Outcome.execFail 0 :: [Outcome.success])) = true) :=
  ⟨by decide,
    c2_retry_whole_chunk chunkExample (Outcome.execFail 0) [Outcome.success] (by decide)⟩

/-- C3: the Completion Hook fires exactly once per Command, in chunk
order, and only when (and after) the chunk's transaction commits; each
call receives the Command itself, hence its `Reference` and `Record`. -/
theorem c3_completion_hook (chunk : List DBCommand) (outcomes : List Outcome) :
    completesOf (processDataTrace chunk outcomes) =
      (if hasSuccess outcomes then chunk else []) ∧
    (completesOf (processDataTrace chunk outcomes)).map
        (fun c => (c.Reference, c.Record)) =
      (if hasSuccess outcomes then chunk.map (fun c => (c.Reference, c.Record)) else []) ∧
    noCompleteBeforeCommit (processDataTrace chunk outcomes) = true := by
  refine ⟨completesOf_trace chunk outcomes, ?_, noCompleteBeforeCommit_trace chunk outcomes⟩
  rw [completesOf_trace chunk outcomes]
  by_cases hs : hasSuccess outcomes <;> simp [hs]

end Writer

